import Mathlib

/-!
Verification of the StartingAbstract repository.

Part 1 embeds `src/analysis/compare_conditional_entropy.py`:
the windows matrix built by `as_strided`, the cumulative tick sizes
`num_windows_list` built from `np.linspace`, and `collect_data`, which
slices cumulative prefixes (optionally after flipping row order),
filters rows whose second-to-last column is a probe token id, and
computes the conditional entropy of that column given the last column.

Part 2 embeds `src/provident/job.py`: the optimizer selection, the
tick-indexed training-and-evaluation loop, the evaluation schedule, and
the collection of performance series.

External collaborators (preppy, categoryeval, pyitlib, torch) are not
part of the repository; where a claim depends on one of them, the
definition is modelled from the specification and says so in its doc
comment.
-/

/-- A window is one row of the windows matrix: a sequence of integer
token ids (`context_size` context tokens followed by one target). -/
abbrev Window := List ℤ

/-- Number of measurement ticks of the entropy analysis
(`NUM_TICKS = 4` in `compare_conditional_entropy.py`). -/
def NUM_TICKS : ℕ := 4

/-- `np.flip(windows, 0)`: reverse the row order of the windows matrix. -/
def flipRows (m : List Window) : List Window := m.reverse

/-- `w[-2]`: the second-to-last entry of a row (the context word
immediately preceding the target). -/
def penult (w : Window) : ℤ := w.getD (w.length - 2) 0

/-- `w[-1]`: the last entry of a row (the next word / target). -/
def lastCol (w : Window) : ℤ := w.getD (w.length - 1) 0

/-- `np.isin(ws[:, -2], probe_ids)`: boolean mask over the rows, true
where the second-to-last column is one of the probe token ids. -/
def isinMask (rows : List Window) (probeIds : List ℤ) : List Bool :=
  rows.map (fun w => probeIds.contains (penult w))

/-- `ws[row_ids]`: numpy boolean-mask row selection, keeping the rows
whose mask entry is true. -/
def maskSelect (rows : List Window) (mask : List Bool) : List Window :=
  (rows.zip mask).filterMap (fun p => if p.2 then some p.1 else none)

/-- Modelled from the spec: the maximum-likelihood (plug-in) entropy in
bits of the empirical distribution of a list, as computed by the external
`pyitlib` estimator: minus the sum over distinct values of p·log2 p with
p the relative frequency of the value. -/
noncomputable def plugInEntropy {α : Type} [DecidableEq α] (l : List α) : ℝ :=
  -((l.dedup.map (fun a =>
      ((l.count a : ℝ) / (l.length : ℝ)) *
        Real.logb 2 ((l.count a : ℝ) / (l.length : ℝ)))).sum)

/-- Modelled from the spec: `drv.entropy_conditional(x, y)` from the
external `pyitlib` library, the conditional entropy H(X|Y) = H(X,Y) − H(Y)
of the paired samples. -/
noncomputable def entropy_conditional (x y : List ℤ) : ℝ :=
  plugInEntropy (x.zip y) - plugInEntropy y

/-- `num_windows_list = [int(i) for i in np.linspace(0, len(windows), NUM_TICKS + 1)][1:]`:
the `NUM_TICKS + 1` equally spaced real points i·n/NUM_TICKS are truncated
to integers and the leading zero is dropped. -/
def num_windows_list (n : ℕ) : List ℕ :=
  (((List.range (NUM_TICKS + 1)).map (fun i => (i * n) / NUM_TICKS)).drop 1)

/-- Modelled from the spec: `prep.num_tokens_in_window` of the external
`preppy` provider, the window width `context_size + 1` (context tokens
plus one target token). -/
def num_tokens_in_window (contextSize : ℕ) : ℕ := contextSize + 1

/-- `num_possible_windows = len(token_ids_array) - prep.num_tokens_in_window`. -/
def num_possible_windows (contextSize : ℕ) (tokenIds : List ℤ) : ℕ :=
  tokenIds.length - num_tokens_in_window contextSize

/-- The windows matrix built by `as_strided` with element-size strides:
row i is the window of `num_tokens_in_window` consecutive token ids
starting at position i, for i = 0 .. num_possible_windows − 1. -/
def mkWindows (contextSize : ℕ) (tokenIds : List ℤ) : List Window :=
  (List.range (num_possible_windows contextSize tokenIds)).map
    (fun i => (tokenIds.drop i).take (num_tokens_in_window contextSize))

/-- `collect_data(windows, reverse)`: optionally flip row order, then for
each cumulative size in `nwl` take that many leading rows, keep the rows
whose second-to-last column is a probe token id, and append the
conditional entropy of the second-to-last column given the last column. -/
noncomputable def collect_data (nwl : List ℕ) (probeIds : List ℤ)
    (windows : List Window) (reverse : Bool) : List ℝ :=
  let ws0 := if reverse then flipRows windows else windows
  nwl.foldl (fun ce num_windows =>
    let ws := ws0.take num_windows
    let row_ids := isinMask ws probeIds
    let probe_windows := maskSelect ws row_ids
    let x := probe_windows.map penult
    let y := probe_windows.map lastCol
    ce ++ [entropy_conditional x y]) []

/-- The gaps between consecutive entries of a list of naturals. -/
def gaps (l : List ℕ) : List ℕ := l.zipWith (fun a b => b - a) l.tail

/-- A list of naturals is equally spaced when all consecutive gaps agree. -/
def equallySpaced (l : List ℕ) : Prop := (gaps l).Pairwise (· = ·)

instance (l : List ℕ) : Decidable (equallySpaced l) := by
  unfold equallySpaced
  infer_instance

lemma num_windows_list_eq (n : ℕ) :
    num_windows_list n = [1 * n / 4, 2 * n / 4, 3 * n / 4, 4 * n / 4] := rfl

lemma foldl_append_map {α β : Type} (g : α → β) (l : List α) (acc : List β) :
    l.foldl (fun ce x => ce ++ [g x]) acc = acc ++ l.map g := by
  induction l generalizing acc with
  | nil => simp
  | cons a l ih => simp [ih]

lemma maskSelect_map (p : Window → Bool) (rows : List Window) :
    maskSelect rows (rows.map p) = rows.filter p := by
  induction rows with
  | nil => rfl
  | cons w ws ih =>
    simp only [maskSelect, List.map_cons, List.zip_cons_cons,
      List.filterMap_cons, List.filter_cons] at *
    cases hp : p w <;> simp [hp, ih]

lemma maskSelect_isinMask (rows : List Window) (ids : List ℤ) :
    maskSelect rows (isinMask rows ids) =
      rows.filter (fun w => decide (penult w ∈ ids)) := by
  unfold isinMask
  rw [maskSelect_map]
  have hp : (fun w => ids.contains (penult w)) =
      (fun w => decide (penult w ∈ ids)) := by
    funext w
    simp [List.elem_eq_mem]
  rw [hp]

lemma collect_data_eq_map (nwl : List ℕ) (probeIds : List ℤ)
    (windows : List Window) (reverse : Bool) :
    collect_data nwl probeIds windows reverse =
      nwl.map (fun k =>
        entropy_conditional
          ((((if reverse then flipRows windows else windows).take k).filter
              (fun w => decide (penult w ∈ probeIds))).map penult)
          ((((if reverse then flipRows windows else windows).take k).filter
              (fun w => decide (penult w ∈ probeIds))).map lastCol)) := by
  unfold collect_data
  rw [foldl_append_map (fun k =>
    entropy_conditional
      ((maskSelect ((if reverse then flipRows windows else windows).take k)
          (isinMask ((if reverse then flipRows windows else windows).take k) probeIds)).map penult)
      ((maskSelect ((if reverse then flipRows windows else windows).take k)
          (isinMask ((if reverse then flipRows windows else windows).take k) probeIds)).map lastCol)) nwl []]
  simp [maskSelect_isinMask]

lemma plugInEntropy_perm {α : Type} [DecidableEq α] {l l' : List α}
    (h : l.Perm l') : plugInEntropy l = plugInEntropy l' := by
  unfold plugInEntropy
  have hf : (fun a : α => ((l.count a : ℝ) / (l.length : ℝ)) *
        Real.logb 2 ((l.count a : ℝ) / (l.length : ℝ))) =
      (fun a : α => ((l'.count a : ℝ) / (l'.length : ℝ)) *
        Real.logb 2 ((l'.count a : ℝ) / (l'.length : ℝ))) := by
    funext a
    rw [h.count_eq a, h.length_eq]
  rw [hf]
  exact congrArg Neg.neg ((h.dedup.map _).sum_eq)

lemma entropy_conditional_of_reverse (kept : List Window) :
    entropy_conditional (kept.reverse.map penult) (kept.reverse.map lastCol) =
      entropy_conditional (kept.map penult) (kept.map lastCol) := by
  unfold entropy_conditional
  rw [List.zip_map', List.zip_map']
  rw [plugInEntropy_perm ((kept.reverse_perm).map (fun w => (penult w, lastCol w))),
    plugInEntropy_perm ((kept.reverse_perm).map lastCol)]

/-- C4: for every window matrix W and every k with 0 ≤ k ≤ number of rows
of W, the first k rows of the row-flipped W equal the last k rows of the
original W taken in reverse order. -/
theorem flip_take_eq_reverse_of_drop (W : List Window) (k : ℕ)
    (_h : k ≤ W.length) :
    (flipRows W).take k = (W.drop (W.length - k)).reverse := by
  simp [flipRows, List.take_reverse]

/-- Witness for C4 at a concrete 3-row matrix with k = 2. -/
theorem flip_take_eq_reverse_of_drop_witness :
    2 ≤ ([[1, 2], [3, 4], [5, 6]] : List Window).length ∧
      (flipRows [[1, 2], [3, 4], [5, 6]]).take 2 =
        (([[1, 2], [3, 4], [5, 6]] : List Window).drop
          (([[1, 2], [3, 4], [5, 6]] : List Window).length - 2)).reverse :=
  ⟨by decide, flip_take_eq_reverse_of_drop [[1, 2], [3, 4], [5, 6]] 2 (by decide)⟩

/-- C5 counterexample: with 5 windows the measured cumulative sizes are
[1, 2, 3, 5], which are not equally spaced. -/
theorem num_windows_list_not_equally_spaced :
    num_windows_list 5 = [1, 2, 3, 5] ∧ ¬ equallySpaced (num_windows_list 5) := by
  constructor
  · rfl
  · decide

/-- C5 amended: the analysis measures at exactly NUM_TICKS = 4 cumulative
sizes, the i-th being the integer truncation of the equally spaced real
point i·n/4; the last equals the full number of windows, and the sizes
are equally spaced whenever the number of windows is divisible by 4. -/
theorem num_windows_list_spec (n : ℕ) :
    (num_windows_list n).length = NUM_TICKS ∧
      num_windows_list n = [1 * n / 4, 2 * n / 4, 3 * n / 4, 4 * n / 4] ∧
      (num_windows_list n).getLast? = some n ∧
      (NUM_TICKS ∣ n → equallySpaced (num_windows_list n)) := by
  refine ⟨rfl, rfl, ?_, ?_⟩
  · rw [num_windows_list_eq]
    have h4 : 4 * n / 4 = n := by omega
    rw [h4]
    simp
  · rintro ⟨m, rfl⟩
    rw [num_windows_list_eq]
    have h1 : 1 * (NUM_TICKS * m) / 4 = m := by unfold NUM_TICKS; omega
    have h2 : 2 * (NUM_TICKS * m) / 4 = 2 * m := by unfold NUM_TICKS; omega
    have h3 : 3 * (NUM_TICKS * m) / 4 = 3 * m := by unfold NUM_TICKS; omega
    have h4 : 4 * (NUM_TICKS * m) / 4 = 4 * m := by unfold NUM_TICKS; omega
    rw [h1, h2, h3, h4]
    have hg : gaps [m, 2 * m, 3 * m, 4 * m] = [m, m, m] := by
      simp only [gaps, List.tail_cons, List.zipWith_cons_cons,
        List.zipWith_nil_right, List.cons.injEq, and_true]
      omega
    unfold equallySpaced
    rw [hg]
    simp [List.pairwise_cons]

/-- Witness for C5's divisibility hypothesis at n = 8. -/
theorem num_windows_list_spec_witness :
    NUM_TICKS ∣ 8 ∧ equallySpaced (num_windows_list 8) :=
  ⟨by decide, (num_windows_list_spec 8).2.2.2 (by decide)⟩

/-- C1: for every cumulative size k in the tick list and for both
directions, collect_data keeps exactly those rows of the k-row prefix
whose second-to-last column is a probe token id, and appends the
conditional entropy of the second-to-last column given the last column
computed over exactly those filtered rows, one value per size. -/
theorem collect_data_keeps_probe_rows (nwl : List ℕ) (probeIds : List ℤ)
    (windows : List Window) (reverse : Bool) :
    collect_data nwl probeIds windows reverse =
      nwl.map (fun k =>
        entropy_conditional
          ((((if reverse then flipRows windows else windows).take k).filter
              (fun w => decide (penult w ∈ probeIds))).map penult)
          ((((if reverse then flipRows windows else windows).take k).filter
              (fun w => decide (penult w ∈ probeIds))).map lastCol)) :=
  collect_data_eq_map nwl probeIds windows reverse

/-- C9: at the final cumulative size (the whole matrix) the forward and
reverse conditional-entropy values agree, because the flip merely permutes
the filtered rows and the plug-in conditional entropy is invariant under
permutation. -/
theorem final_tick_forward_reverse_equal (probeIds : List ℤ)
    (windows : List Window) :
    (collect_data (num_windows_list windows.length) probeIds windows false).getLast? =
      (collect_data (num_windows_list windows.length) probeIds windows true).getLast? := by
  rw [collect_data_eq_map, collect_data_eq_map, num_windows_list_eq]
  have h4 : 4 * windows.length / 4 = windows.length := by omega
  rw [h4]
  simp only [List.map_cons, List.map_nil, List.getLast?_cons_cons,
    List.getLast?_singleton, Bool.false_eq_true, if_false, if_pos]
  have hfwd : windows.take windows.length = windows := List.take_length windows
  have hrev : (flipRows windows).take windows.length = windows.reverse := by
    unfold flipRows
    rw [← List.length_reverse windows, List.take_length]
  rw [hfwd, hrev, List.filter_reverse]
  exact congrArg some (entropy_conditional_of_reverse
    (windows.filter (fun w => decide (penult w ∈ probeIds)))).symm

/-- The number of length-w windows a stream of length L admits: one per
start position i with i + w ≤ L. -/
def numAdmissibleWindows (L w : ℕ) : ℕ :=
  ((Finset.range (L + 1)).filter (fun i => i + w ≤ L)).card

/-- C10: the windows matrix has exactly `len(token_ids) − (context_size + 1)`
rows, one fewer than the number of length-(context_size + 1) windows the
token stream admits, and every row of it (hence of any cumulative prefix
in either direction) is a window starting strictly before the final
admissible start position. -/
theorem mkWindows_num_rows (contextSize : ℕ) (tokenIds : List ℤ)
    (h : num_tokens_in_window contextSize ≤ tokenIds.length) :
    (mkWindows contextSize tokenIds).length =
        tokenIds.length - (contextSize + 1) ∧
      (mkWindows contextSize tokenIds).length + 1 =
        numAdmissibleWindows tokenIds.length (num_tokens_in_window contextSize) ∧
      ∀ w ∈ mkWindows contextSize tokenIds,
        ∃ i, i < tokenIds.length - (contextSize + 1) ∧
          w = (tokenIds.drop i).take (contextSize + 1) := by
  unfold num_tokens_in_window at h
  have hadm : numAdmissibleWindows tokenIds.length
      (num_tokens_in_window contextSize) =
      tokenIds.length - (contextSize + 1) + 1 := by
    unfold numAdmissibleWindows num_tokens_in_window
    have hset : (Finset.range (tokenIds.length + 1)).filter
        (fun i => i + (contextSize + 1) ≤ tokenIds.length) =
        Finset.range (tokenIds.length - (contextSize + 1) + 1) := by
      ext i
      simp only [Finset.mem_filter, Finset.mem_range]
      omega
    rw [hset, Finset.card_range]
  refine ⟨?_, ?_, ?_⟩
  · simp [mkWindows, num_possible_windows, num_tokens_in_window]
  · rw [hadm]
    simp [mkWindows, num_possible_windows, num_tokens_in_window]
  · intro w hw
    simp only [mkWindows, List.mem_map, List.mem_range] at hw
    obtain ⟨i, hi, rfl⟩ := hw
    refine ⟨i, ?_, rfl⟩
    simpa [num_possible_windows, num_tokens_in_window] using hi

/-- Witness for C10 on a 4-token stream with context size 1. -/
theorem mkWindows_num_rows_witness :
    num_tokens_in_window 1 ≤ ([1, 2, 3, 4] : List ℤ).length ∧
      (mkWindows 1 [1, 2, 3, 4]).length + 1 =
        numAdmissibleWindows ([1, 2, 3, 4] : List ℤ).length
          (num_tokens_in_window 1) :=
  ⟨by decide, (mkWindows_num_rows 1 [1, 2, 3, 4] (by decide)).2.1⟩

namespace Job

/-- The optimizer selected by `main` in `src/provident/job.py`. -/
inductive Optimizer
| adagrad
| sgd
deriving DecidableEq

/-- Configuration of the training job: the optimizer name from `Params`,
together with the schedule constants read from the external `configs`
module (`num_total_ticks`, `num_start_ticks`, `tick_step`) and the
per-evaluation minibatch count `prep.num_mbs_per_eval` of the external
batching provider. -/
structure Config where
  optimizer : String
  num_total_ticks : ℕ
  num_mbs_per_eval : ℕ
  num_start_ticks : ℕ
  tick_step : ℕ

/-- Optimizer selection in `main`: "adagrad" and "sgd" are accepted, any
other name raises `AttributeError('Invalid arg to "optimizer"')`. -/
def mkOptimizer (s : String) : Except String Optimizer :=
  if s = "adagrad" then .ok .adagrad
  else if s = "sgd" then .ok .sgd
  else .error "Invalid arg to \x22optimizer\x22"

/-- The performance record: one series of metric values per metric name,
initialized with `train_pp` and `test_pp` empty. -/
structure Performance (V : Type) where
  train_pp : List V
  test_pp : List V
  cs : List V
  dp : List V
  ba : List V

/-- Modelled from the spec: the external `update_cs_performance` from
`provident.evaluation` appends the freshly computed category-spread value
to its series. -/
def update_cs_performance {V : Type} (p : Performance V) (v : V) :
    Performance V :=
  { p with cs := p.cs ++ [v] }

/-- Modelled from the spec: the external `update_dp_performance` appends
the freshly computed distributional-purity value to its series. -/
def update_dp_performance {V : Type} (p : Performance V) (v : V) :
    Performance V :=
  { p with dp := p.dp ++ [v] }

/-- Modelled from the spec: the external `update_pp_performance` appends
the freshly computed train and test perplexities to their series. -/
def update_pp_performance {V : Type} (p : Performance V) (vTrain vTest : V) :
    Performance V :=
  { p with train_pp := p.train_pp ++ [vTrain], test_pp := p.test_pp ++ [vTest] }

/-- Modelled from the spec: the external `update_ba_performance` appends
the freshly computed balanced-accuracy value to its series. -/
def update_ba_performance {V : Type} (p : Performance V) (v : V) :
    Performance V :=
  { p with ba := p.ba ++ [v] }

/-- Modelled from the spec: the external scorers produce one metric value
per evaluation; they are abstracted as functions of the tick index. -/
structure Scorers (V : Type) where
  csVal : ℕ → V
  dpVal : ℕ → V
  ppTrainVal : ℕ → V
  ppTestVal : ℕ → V
  baVal : ℕ → V

/-- The mutable state of the train-and-eval loop: the position of the
shared `windows_generator`, the `train_mb` counter, the `performance_mbs`
markers, the performance record, and the number of loop-body iterations
executed so far. -/
structure LoopState (V : Type) where
  cursor : ℕ
  train_mb : ℕ
  performance_mbs : List ℕ
  perf : Performance V
  iters : ℕ

/-- `train_on_corpus` trains on `islice(windows_generator, 0,
prep.num_mbs_per_eval)`: the shared generator advances by
`num_mbs_per_eval` minibatches, or to its end if fewer remain. The
generator is represented by its length and the current position. -/
def train_on_corpus (genLen numMbs cursor : ℕ) : ℕ :=
  min (cursor + numMbs) genLen

/-- The evaluation schedule of `main`:
`tick < configs.Eval.num_start_ticks or tick % configs.Eval.tick_step == 0`. -/
def evalScheduled (cfg : Config) (tick : ℕ) : Bool :=
  decide (tick < cfg.num_start_ticks) || (tick % cfg.tick_step == 0)

/-- One iteration of `for tick, eval_mb in enumerate(train_prep.eval_mbs)`:
on a nonzero tick first train on the next block of minibatches, then, if
the tick is scheduled, record `eval_mb` and evaluate the four probes. -/
def tickBody {V : Type} (cfg : Config) (genLen : ℕ) (sc : Scorers V)
    (s : LoopState V) (te : ℕ × ℕ) : LoopState V :=
  let tick := te.1
  let eval_mb := te.2
  let s1 := if tick ≠ 0 then
      { s with cursor := train_on_corpus genLen cfg.num_mbs_per_eval s.cursor,
               train_mb := s.train_mb + cfg.num_mbs_per_eval }
    else s
  let s2 := if evalScheduled cfg tick then
      { s1 with
          performance_mbs := s1.performance_mbs ++ [eval_mb],
          perf := update_ba_performance
            (update_pp_performance
              (update_dp_performance
                (update_cs_performance s1.perf (sc.csVal tick))
                (sc.dpVal tick))
              (sc.ppTrainVal tick) (sc.ppTestVal tick))
            (sc.baVal tick) }
    else s1
  { s2 with iters := s2.iters + 1 }

/-- Modelled from the spec: `train_prep.eval_mbs` of the external batching
provider, the minibatch counts of the ticks 0 .. num_total_ticks, tick t
falling after t·num_mbs_per_eval training minibatches. -/
def eval_mbs (cfg : Config) : List ℕ :=
  (List.range (cfg.num_total_ticks + 1)).map (fun t => t * cfg.num_mbs_per_eval)

/-- The state before the loop: generator at the start, `train_mb = 0`,
`performance_mbs = []`, all performance series empty. -/
def initState (V : Type) : LoopState V :=
  ⟨0, 0, [], ⟨[], [], [], [], []⟩, 0⟩

/-- The train-and-eval loop of `main`. -/
def trainLoop {V : Type} (cfg : Config) (genLen : ℕ) (sc : Scorers V) :
    LoopState V :=
  (eval_mbs cfg).enum.foldl (tickBody cfg genLen sc) (initState V)

/-- The loop state after the body has run for ticks 0 .. k−1 (the first k
iterations). -/
def foldTicks {V : Type} (cfg : Config) (genLen : ℕ) (sc : Scorers V)
    (k : ℕ) : LoopState V :=
  (List.range k).foldl
    (fun s t => tickBody cfg genLen sc s (t, t * cfg.num_mbs_per_eval))
    (initState V)

/-- Collection of the performance series at the end of `main`: every
non-empty series becomes a pandas Series named by its metric and indexed
by `performance_mbs`. -/
def collectRes {V : Type} (s : LoopState V) :
    List (String × List V × List ℕ) :=
  ([("train_pp", s.perf.train_pp), ("test_pp", s.perf.test_pp),
    ("cs", s.perf.cs), ("dp", s.perf.dp),
    ("ba", s.perf.ba)]).filterMap
    (fun kv => if kv.2.isEmpty then none
      else some (kv.1, kv.2, s.performance_mbs))

/-- `main`: select the optimizer, raising on an unknown name before the
training loop starts and before any minibatch is consumed; otherwise run
the loop and collect the performance series. -/
def main {V : Type} (cfg : Config) (genLen : ℕ) (sc : Scorers V) :
    Except String (List (String × List V × List ℕ)) :=
  match mkOptimizer cfg.optimizer with
  | .error e => .error e
  | .ok _ => .ok (collectRes (trainLoop cfg genLen sc))

/-- The number of scheduled evaluation ticks of a configuration. -/
def numScheduled (cfg : Config) : ℕ :=
  ((List.range (cfg.num_total_ticks + 1)).filter
    (fun t => evalScheduled cfg t)).length

end Job

lemma Job.evalScheduled_iff (cfg : Job.Config) (t : ℕ) :
    Job.evalScheduled cfg t = true ↔
      (t < cfg.num_start_ticks ∨ cfg.tick_step ∣ t) := by
  simp [Job.evalScheduled, Nat.dvd_iff_mod_eq_zero]

lemma Job.tickBody_iters {V : Type} (cfg : Job.Config) (genLen : ℕ)
    (sc : Job.Scorers V) (s : Job.LoopState V) (te : ℕ × ℕ) :
    (Job.tickBody cfg genLen sc s te).iters = s.iters + 1 := by
  unfold Job.tickBody
  by_cases h0 : te.1 ≠ 0 <;> by_cases hs : Job.evalScheduled cfg te.1 <;>
    simp [h0, hs]

lemma Job.tickBody_cursor {V : Type} (cfg : Job.Config) (genLen : ℕ)
    (sc : Job.Scorers V) (s : Job.LoopState V) (te : ℕ × ℕ) :
    (Job.tickBody cfg genLen sc s te).cursor =
      if te.1 ≠ 0 then
        Job.train_on_corpus genLen cfg.num_mbs_per_eval s.cursor
      else s.cursor := by
  unfold Job.tickBody
  by_cases h0 : te.1 ≠ 0 <;> by_cases hs : Job.evalScheduled cfg te.1 <;>
    simp [h0, hs]

lemma Job.tickBody_performance_mbs {V : Type} (cfg : Job.Config) (genLen : ℕ)
    (sc : Job.Scorers V) (s : Job.LoopState V) (te : ℕ × ℕ) :
    (Job.tickBody cfg genLen sc s te).performance_mbs =
      s.performance_mbs ++
        (if Job.evalScheduled cfg te.1 then [te.2] else []) := by
  unfold Job.tickBody
  by_cases h0 : te.1 ≠ 0 <;> by_cases hs : Job.evalScheduled cfg te.1 <;>
    simp [h0, hs]

lemma Job.tickBody_perf {V : Type} (cfg : Job.Config) (genLen : ℕ)
    (sc : Job.Scorers V) (s : Job.LoopState V) (te : ℕ × ℕ) :
    (Job.tickBody cfg genLen sc s te).perf.cs =
        s.perf.cs ++ (if Job.evalScheduled cfg te.1 then [sc.csVal te.1] else []) ∧
      (Job.tickBody cfg genLen sc s te).perf.dp =
        s.perf.dp ++ (if Job.evalScheduled cfg te.1 then [sc.dpVal te.1] else []) ∧
      (Job.tickBody cfg genLen sc s te).perf.train_pp =
        s.perf.train_pp ++ (if Job.evalScheduled cfg te.1 then [sc.ppTrainVal te.1] else []) ∧
      (Job.tickBody cfg genLen sc s te).perf.test_pp =
        s.perf.test_pp ++ (if Job.evalScheduled cfg te.1 then [sc.ppTestVal te.1] else []) ∧
      (Job.tickBody cfg genLen sc s te).perf.ba =
        s.perf.ba ++ (if Job.evalScheduled cfg te.1 then [sc.baVal te.1] else []) := by
  unfold Job.tickBody Job.update_ba_performance Job.update_pp_performance
    Job.update_dp_performance Job.update_cs_performance
  by_cases h0 : te.1 ≠ 0 <;> by_cases hs : Job.evalScheduled cfg te.1 <;>
    simp [h0, hs]

lemma Job.enum_eval_mbs (cfg : Job.Config) :
    (Job.eval_mbs cfg).enum =
      (List.range (cfg.num_total_ticks + 1)).map
        (fun t => (t, t * cfg.num_mbs_per_eval)) := by
  unfold Job.eval_mbs
  rw [List.enum_map, List.enum_eq_zip_range]
  have hz : (List.range (cfg.num_total_ticks + 1)).zip
      (List.range (cfg.num_total_ticks + 1)) =
      (List.range (cfg.num_total_ticks + 1)).map (fun i => (i, i)) := by
    have h := List.zip_map' (id) (id) (List.range (cfg.num_total_ticks + 1))
    simpa using h
  rw [List.length_range, hz, List.map_map]
  rfl

lemma Job.trainLoop_eq_foldTicks {V : Type} (cfg : Job.Config) (genLen : ℕ)
    (sc : Job.Scorers V) :
    Job.trainLoop cfg genLen sc =
      Job.foldTicks cfg genLen sc (cfg.num_total_ticks + 1) := by
  unfold Job.trainLoop Job.foldTicks
  rw [Job.enum_eval_mbs, List.foldl_map]

lemma Job.foldl_tickBody_iters {V : Type} (cfg : Job.Config) (genLen : ℕ)
    (sc : Job.Scorers V) (l : List (ℕ × ℕ)) :
    ∀ s : Job.LoopState V,
      (l.foldl (Job.tickBody cfg genLen sc) s).iters = s.iters + l.length := by
  induction l with
  | nil => intro s; simp
  | cons a l ih =>
    intro s
    simp only [List.foldl_cons, List.length_cons, ih, Job.tickBody_iters]
    omega

lemma Job.foldTicks_cursor {V : Type} (cfg : Job.Config) (genLen : ℕ)
    (sc : Job.Scorers V)
    (hgen : cfg.num_total_ticks * cfg.num_mbs_per_eval ≤ genLen) :
    ∀ k, k ≤ cfg.num_total_ticks + 1 →
      (Job.foldTicks cfg genLen sc k).cursor =
        (k - 1) * cfg.num_mbs_per_eval := by
  intro k
  induction k with
  | zero => intro _; simp [Job.foldTicks, Job.initState]
  | succ k ih =>
    intro hk
    have hcur := ih (by omega)
    unfold Job.foldTicks at *
    rw [List.range_succ, List.foldl_append, List.foldl_cons, List.foldl_nil,
      Job.tickBody_cursor]
    rcases Nat.eq_zero_or_pos k with h0 | h0
    · subst h0
      simp [hcur, Job.initState]
    · have hkn : k * cfg.num_mbs_per_eval ≤ genLen := by
        calc k * cfg.num_mbs_per_eval
            ≤ cfg.num_total_ticks * cfg.num_mbs_per_eval :=
              Nat.mul_le_mul_right _ (by omega)
          _ ≤ genLen := hgen
      have hstep : (k - 1) * cfg.num_mbs_per_eval + cfg.num_mbs_per_eval =
          k * cfg.num_mbs_per_eval := by
        obtain ⟨m, rfl⟩ : ∃ m, k = m + 1 := ⟨k - 1, by omega⟩
        simp [Nat.succ_mul]
      have hne : k ≠ 0 := by omega
      simp only [hne, if_true, Job.train_on_corpus, hcur, hstep,
        Nat.succ_sub_one, if_pos, ne_eq, not_false_iff]
      omega

lemma Job.foldTicks_series {V : Type} (cfg : Job.Config) (genLen : ℕ)
    (sc : Job.Scorers V) :
    ∀ k,
      (Job.foldTicks cfg genLen sc k).performance_mbs =
          ((List.range k).filter (fun t => Job.evalScheduled cfg t)).map
            (fun t => t * cfg.num_mbs_per_eval) ∧
        (Job.foldTicks cfg genLen sc k).perf.cs =
          ((List.range k).filter (fun t => Job.evalScheduled cfg t)).map sc.csVal ∧
        (Job.foldTicks cfg genLen sc k).perf.dp =
          ((List.range k).filter (fun t => Job.evalScheduled cfg t)).map sc.dpVal ∧
        (Job.foldTicks cfg genLen sc k).perf.train_pp =
          ((List.range k).filter (fun t => Job.evalScheduled cfg t)).map sc.ppTrainVal ∧
        (Job.foldTicks cfg genLen sc k).perf.test_pp =
          ((List.range k).filter (fun t => Job.evalScheduled cfg t)).map sc.ppTestVal ∧
        (Job.foldTicks cfg genLen sc k).perf.ba =
          ((List.range k).filter (fun t => Job.evalScheduled cfg t)).map sc.baVal := by
  intro k
  induction k with
  | zero => exact ⟨rfl, rfl, rfl, rfl, rfl, rfl⟩
  | succ k ih =>
    obtain ⟨h1, h2, h3, h4, h5, h6⟩ := ih
    unfold Job.foldTicks at *
    rw [List.range_succ, List.foldl_append, List.foldl_cons, List.foldl_nil]
    obtain ⟨p1, p2, p3, p4, p5⟩ := Job.tickBody_perf cfg genLen sc
      ((List.range k).foldl
        (fun s t => Job.tickBody cfg genLen sc s (t, t * cfg.num_mbs_per_eval))
        (Job.initState V))
      (k, k * cfg.num_mbs_per_eval)
    by_cases hs : Job.evalScheduled cfg k <;>
      exact ⟨by simp [Job.tickBody_performance_mbs, h1, List.filter_append, hs],
        by simp [p1, h2, List.filter_append, hs],
        by simp [p2, h3, List.filter_append, hs],
        by simp [p3, h4, List.filter_append, hs],
        by simp [p4, h5, List.filter_append, hs],
        by simp [p5, h6, List.filter_append, hs]⟩

/-- C8: the training loop body executes exactly num_total_ticks + 1 times,
once per tick 0 .. num_total_ticks. -/
theorem loop_iteration_count {V : Type} (cfg : Job.Config) (genLen : ℕ)
    (sc : Job.Scorers V) :
    (Job.trainLoop cfg genLen sc).iters = cfg.num_total_ticks + 1 := by
  unfold Job.trainLoop
  rw [Job.foldl_tickBody_iters]
  simp [Job.initState, List.enum_length, Job.eval_mbs]

/-- C3: on every tick t the four probes are evaluated — one entry appended
to performance_mbs and to each performance series — precisely when
t < num_start_ticks or t is a multiple of tick_step; on all other ticks
nothing is appended. -/
theorem eval_schedule_iff {V : Type} (cfg : Job.Config) (genLen : ℕ)
    (sc : Job.Scorers V) (s : Job.LoopState V) (t eval_mb : ℕ) :
    (Job.tickBody cfg genLen sc s (t, eval_mb)).performance_mbs =
        s.performance_mbs ++
          (if t < cfg.num_start_ticks ∨ cfg.tick_step ∣ t then [eval_mb] else []) ∧
      (Job.tickBody cfg genLen sc s (t, eval_mb)).perf.cs =
        s.perf.cs ++
          (if t < cfg.num_start_ticks ∨ cfg.tick_step ∣ t then [sc.csVal t] else []) ∧
      (Job.tickBody cfg genLen sc s (t, eval_mb)).perf.dp =
        s.perf.dp ++
          (if t < cfg.num_start_ticks ∨ cfg.tick_step ∣ t then [sc.dpVal t] else []) ∧
      (Job.tickBody cfg genLen sc s (t, eval_mb)).perf.train_pp =
        s.perf.train_pp ++
          (if t < cfg.num_start_ticks ∨ cfg.tick_step ∣ t then [sc.ppTrainVal t] else []) ∧
      (Job.tickBody cfg genLen sc s (t, eval_mb)).perf.test_pp =
        s.perf.test_pp ++
          (if t < cfg.num_start_ticks ∨ cfg.tick_step ∣ t then [sc.ppTestVal t] else []) ∧
      (Job.tickBody cfg genLen sc s (t, eval_mb)).perf.ba =
        s.perf.ba ++
          (if t < cfg.num_start_ticks ∨ cfg.tick_step ∣ t then [sc.baVal t] else []) := by
  obtain ⟨p1, p2, p3, p4, p5⟩ := Job.tickBody_perf cfg genLen sc s (t, eval_mb)
  have hmbs := Job.tickBody_performance_mbs cfg genLen sc s (t, eval_mb)
  by_cases h : t < cfg.num_start_ticks ∨ cfg.tick_step ∣ t
  · have hb : Job.evalScheduled cfg t = true := (Job.evalScheduled_iff cfg t).mpr h
    rw [hb] at p1 p2 p3 p4 p5 hmbs
    exact ⟨by simp [hmbs, h], by simp [p1, h], by simp [p2, h],
      by simp [p3, h], by simp [p4, h], by simp [p5, h]⟩
  · have hb : Job.evalScheduled cfg t = false := by
      rcases Bool.eq_false_or_eq_true (Job.evalScheduled cfg t) with ht | hf
      · exact absurd ((Job.evalScheduled_iff cfg t).mp ht) h
      · exact hf
    rw [hb] at p1 p2 p3 p4 p5 hmbs
    exact ⟨by simp [hmbs, h], by simp [p1, h], by simp [p2, h],
      by simp [p3, h], by simp [p4, h], by simp [p5, h]⟩

/-- C2: provided the windows generator holds at least
num_total_ticks · num_mbs_per_eval minibatches, tick 0 consumes none of
them and every tick t ≥ 1 consumes exactly num_mbs_per_eval from the
shared generator. -/
theorem minibatches_consumed_per_tick {V : Type} (cfg : Job.Config)
    (genLen : ℕ) (sc : Job.Scorers V)
    (hgen : cfg.num_total_ticks * cfg.num_mbs_per_eval ≤ genLen) :
    (Job.foldTicks cfg genLen sc 1).cursor = 0 ∧
      ∀ t, 1 ≤ t → t ≤ cfg.num_total_ticks →
        (Job.foldTicks cfg genLen sc (t + 1)).cursor =
          (Job.foldTicks cfg genLen sc t).cursor + cfg.num_mbs_per_eval := by
  constructor
  · rw [Job.foldTicks_cursor cfg genLen sc hgen 1 (by omega)]
    simp
  · intro t h1 h2
    rw [Job.foldTicks_cursor cfg genLen sc hgen (t + 1) (by omega),
      Job.foldTicks_cursor cfg genLen sc hgen t (by omega)]
    obtain ⟨m, rfl⟩ : ∃ m, t = m + 1 := ⟨t - 1, by omega⟩
    simp [Nat.succ_mul]

/-- Witness for C2 on a 2-tick configuration with 3 minibatches per
evaluation and a generator of 6 minibatches. -/
theorem minibatches_consumed_per_tick_witness :
    2 * 3 ≤ 6 ∧
      (Job.foldTicks ⟨"sgd", 2, 3, 1, 1⟩ 6
          ⟨fun _ => (0 : ℕ), fun _ => 0, fun _ => 0, fun _ => 0, fun _ => 0⟩
          (1 + 1)).cursor =
        (Job.foldTicks ⟨"sgd", 2, 3, 1, 1⟩ 6
          ⟨fun _ => (0 : ℕ), fun _ => 0, fun _ => 0, fun _ => 0, fun _ => 0⟩
          1).cursor + 3 :=
  ⟨by decide,
    (minibatches_consumed_per_tick ⟨"sgd", 2, 3, 1, 1⟩ 6
      ⟨fun _ => (0 : ℕ), fun _ => 0, fun _ => 0, fun _ => 0, fun _ => 0⟩
      (by decide)).2 1 (by decide) (by decide)⟩

/-- C6: an optimizer name other than "adagrad" or "sgd" makes main raise
during setup, before the training loop and before any minibatch is
consumed, while those two names pass the check. -/
theorem optimizer_validation {V : Type} (cfg : Job.Config) (genLen : ℕ)
    (sc : Job.Scorers V) :
    (cfg.optimizer ≠ "adagrad" → cfg.optimizer ≠ "sgd" →
        Job.main cfg genLen sc =
          Except.error "Invalid arg to \x22optimizer\x22") ∧
      ((cfg.optimizer = "adagrad" ∨ cfg.optimizer = "sgd") →
        ∃ r, Job.main cfg genLen sc = Except.ok r) := by
  constructor
  · intro h1 h2
    unfold Job.main Job.mkOptimizer
    simp [h1, h2]
  · rintro (h | h) <;> unfold Job.main Job.mkOptimizer <;> rw [h] <;> simp

/-- Witness for C6: "adam" is rejected, "sgd" is accepted. -/
theorem optimizer_validation_witness :
    Job.main (V := ℕ) ⟨"adam", 0, 0, 0, 1⟩ 0
        ⟨fun _ => 0, fun _ => 0, fun _ => 0, fun _ => 0, fun _ => 0⟩ =
      Except.error "Invalid arg to \x22optimizer\x22" ∧
      ∃ r, Job.main (V := ℕ) ⟨"sgd", 0, 0, 0, 1⟩ 0
          ⟨fun _ => 0, fun _ => 0, fun _ => 0, fun _ => 0, fun _ => 0⟩ =
        Except.ok r :=
  ⟨(optimizer_validation ⟨"adam", 0, 0, 0, 1⟩ 0
      ⟨fun _ => 0, fun _ => 0, fun _ => 0, fun _ => 0, fun _ => 0⟩).1
      (by decide) (by decide),
    (optimizer_validation ⟨"sgd", 0, 0, 0, 1⟩ 0
      ⟨fun _ => 0, fun _ => 0, fun _ => 0, fun _ => 0, fun _ => 0⟩).2
      (Or.inr rfl)⟩

/-- C7: every performance series returned by main has length at most the
number of scheduled evaluation ticks, every returned series is indexed by
the same performance_mbs marker list, and that list is strictly
increasing. -/
theorem performance_series_aligned {V : Type} (cfg : Job.Config)
    (genLen : ℕ) (sc : Job.Scorers V)
    (res : List (String × List V × List ℕ))
    (hn : 0 < cfg.num_mbs_per_eval)
    (hres : Job.main cfg genLen sc = Except.ok res) :
    (∀ series ∈ res,
        series.2.1.length ≤ Job.numScheduled cfg ∧
          series.2.2 = (Job.trainLoop cfg genLen sc).performance_mbs) ∧
      (Job.trainLoop cfg genLen sc).performance_mbs.Pairwise (· < ·) := by
  have hres' : res = Job.collectRes (Job.trainLoop cfg genLen sc) := by
    unfold Job.main at hres
    cases hmk : Job.mkOptimizer cfg.optimizer with
    | error e => rw [hmk] at hres; cases hres
    | ok o =>
      rw [hmk] at hres
      cases hres
      rfl
  have hTL := Job.trainLoop_eq_foldTicks cfg genLen sc
  obtain ⟨h1, h2, h3, h4, h5, h6⟩ :=
    Job.foldTicks_series cfg genLen sc (cfg.num_total_ticks + 1)
  have hlen : ∀ W : Type, ∀ f : ℕ → W,
      (((List.range (cfg.num_total_ticks + 1)).filter
        (fun t => Job.evalScheduled cfg t)).map f).length =
        Job.numScheduled cfg := by
    intro W f
    simp [Job.numScheduled]
  constructor
  · intro series hs
    rw [hres'] at hs
    unfold Job.collectRes at hs
    rw [List.mem_filterMap] at hs
    obtain ⟨a, ha, hfa⟩ := hs
    have hseries : series = (a.1, a.2, (Job.trainLoop cfg genLen sc).performance_mbs) := by
      by_cases he : a.2.isEmpty
      · rw [if_pos he] at hfa
        cases hfa
      · rw [if_neg he] at hfa
        exact (Option.some_inj.mp hfa).symm
    have hval : a.2 = (Job.trainLoop cfg genLen sc).perf.train_pp ∨
        a.2 = (Job.trainLoop cfg genLen sc).perf.test_pp ∨
        a.2 = (Job.trainLoop cfg genLen sc).perf.cs ∨
        a.2 = (Job.trainLoop cfg genLen sc).perf.dp ∨
        a.2 = (Job.trainLoop cfg genLen sc).perf.ba := by
      simp only [List.mem_cons, List.not_mem_nil, or_false] at ha
      rcases ha with h | h | h | h | h <;> rw [h] <;> simp
    rw [hseries]
    refine ⟨?_, rfl⟩
    rw [hTL] at hval
    rcases hval with h | h | h | h | h <;> rw [h]
    · rw [h4, hlen]
    · rw [h5, hlen]
    · rw [h2, hlen]
    · rw [h3, hlen]
    · rw [h6, hlen]
  · rw [hTL, h1]
    exact List.Pairwise.map _
      (fun a b hab => (Nat.mul_lt_mul_right hn).mpr hab)
      ((List.pairwise_lt_range _).filter _)

/-- Witness for C7 on a single-tick sgd configuration. -/
theorem performance_series_aligned_witness :
    0 < (1 : ℕ) ∧
      Job.main (V := ℕ) ⟨"sgd", 0, 1, 1, 1⟩ 0
          ⟨fun _ => 0, fun _ => 0, fun _ => 0, fun _ => 0, fun _ => 0⟩ =
        Except.ok [("train_pp", [0], [0]), ("test_pp", [0], [0]),
          ("cs", [0], [0]), ("dp", [0], [0]), ("ba", [0], [0])] ∧
      ((∀ series ∈ ([("train_pp", [0], [0]), ("test_pp", [0], [0]),
            ("cs", [0], [0]), ("dp", [0], [0]), ("ba", [0], [0])] :
              List (String × List ℕ × List ℕ)),
          series.2.1.length ≤ Job.numScheduled ⟨"sgd", 0, 1, 1, 1⟩ ∧
            series.2.2 = (Job.trainLoop ⟨"sgd", 0, 1, 1, 1⟩ 0
              ⟨fun _ => 0, fun _ => 0, fun _ => 0, fun _ => 0,
                fun _ => 0⟩).performance_mbs) ∧
        (Job.trainLoop ⟨"sgd", 0, 1, 1, 1⟩ 0
          ⟨fun _ => 0, fun _ => 0, fun _ => 0, fun _ => 0,
            fun _ => 0⟩).performance_mbs.Pairwise (· < ·)) :=
  ⟨by decide, by rfl,
    performance_series_aligned ⟨"sgd", 0, 1, 1, 1⟩ 0
      ⟨fun _ => 0, fun _ => 0, fun _ => 0, fun _ => 0, fun _ => 0⟩
      [("train_pp", [0], [0]), ("test_pp", [0], [0]),
        ("cs", [0], [0]), ("dp", [0], [0]), ("ba", [0], [0])]
      (by decide) (by rfl)⟩
